import Mathlib

/-
Verification of the jyugemu command-history store and query layer.

The development is a shallow embedding of the TypeScript sources:
  * `FileManager` (file `src/file-manager.ts`): `initializeHistoryFile`,
    `appendCommand`, `readHistory`, `backupCorruptedFile`, `atomicWrite`,
    `acquireLock` / `releaseLock`.
  * `HistoryManager` (file `src/history-manager.ts`): `filterCommands`,
    `formatForDisplay`.
  * `SessionManager` (file `src/session-manager.ts`): `captureCommand`,
    `validateCommandRecord`, `isValidISO8601`.

Filesystem state visible to the store (the history file, the sibling
`.tmp` file, the sibling `.lock` file and the `.backup.<ts>` files) is
modelled explicitly as a `StoreState`.  File content is modelled at the
JSON level: a file either holds a serialized history document (which
`JSON.parse` decodes back to the same record list) or corrupt bytes
(which make `JSON.parse` throw).  The fallible filesystem primitives
used by `atomicWrite` (`writeFileSync` on the temp path, `renameSync`)
are driven by an explicit fault oracle `Faults`; the cleanup primitives
(`unlinkSync` of temp and lock files) are assumed to succeed, as both
code and spec treat their failure as ignored best-effort cleanup.
Strings are modelled with Lean `String`; the JavaScript
`toLowerCase` / `toUpperCase` / `trim` functions are modelled by their
per-character ASCII behaviour.
-/

namespace Jyugemu

/-- One logged command execution, mirroring the `CommandRecord`
interface of `src/types.ts`: timestamp, user, command, exit code,
working directory and an optional note. -/
structure CommandRecord where
  timestamp : String
  user : String
  command : String
  exit_code : Int
  cwd : String
  note : Option String := none
deriving Repr, DecidableEq

/-- Content of a file as seen through `JSON.parse`: either a serialized
history document `\x7b history: [...] \x7d`, or bytes on which
`JSON.parse` throws. -/
inductive FileContent where
  | valid (history : List CommandRecord)
  | corrupt (raw : String)
deriving Repr, DecidableEq

/-- The error kinds raised by the store, following the spec's taxonomy
for the throws in `file-manager.ts`. -/
inductive StoreErr where
  | alreadyExists
  | writeError
  | readError
  | lockTimeout
  | backupError
deriving Repr, DecidableEq

/-- The filesystem state owned by one `FileManager`: the history file,
the sibling temp file (`<path>.tmp`), the sibling lock file
(`<path>.lock`, existence-only signal) and the backup files
(`<path>.backup.<timestamp>`), kept in creation order. -/
structure StoreState where
  historyFile : Option FileContent
  tmpFile : Option FileContent
  lockFile : Bool
  backups : List FileContent
deriving Repr, DecidableEq

/-- Fault oracle for the two fallible filesystem calls inside
`atomicWrite`: `fs.writeFileSync` on the temp path and
`fs.renameSync` onto the real path. -/
structure Faults where
  writeFails : Bool
  renameFails : Bool
deriving Repr, DecidableEq

/-- The fault oracle under which every filesystem call succeeds. -/
def noFaults : Faults := { writeFails := false, renameFails := false }

/-- The state with no history file, no temp file, no lock file and no
backups: a fresh directory. -/
def emptyStore : StoreState :=
  { historyFile := none, tmpFile := none, lockFile := false, backups := [] }

/-- `JSON.parse` of a history file: a serialized document decodes to
its record list, corrupt bytes throw (`none`). -/
def parseHistory (c : FileContent) : Option (List CommandRecord) :=
  match c with
  | .valid h => some h
  | .corrupt _ => none

/-- `JSON.stringify` of a history document. -/
def serializeHistory (h : List CommandRecord) : FileContent :=
  .valid h

/-- `FileManager.atomicWrite`: write the serialized document to
`<path>.tmp`, then rename it onto the real path.  On a write or rename
failure the catch block removes the temp file (best effort) and the
call fails with a `WriteError`; on success the rename leaves no temp
file and the history file holds the new document. -/
def atomicWrite (doc : List CommandRecord) (f : Faults) (s : StoreState) :
    Option StoreErr × StoreState :=
  if f.writeFails then
    (some .writeError, { s with tmpFile := none })
  else if f.renameFails then
    (some .writeError, { s with tmpFile := none })
  else
    (none, { s with historyFile := some (serializeHistory doc), tmpFile := none })

/-- `FileManager.appendCommand`: acquire the lock (with a lock file
already present the poll loop times out and throws `LockTimeout`
before the `try` block, so the `finally` does not run), read the
current document (absent file is treated as an empty history, a decode
failure propagates as a read error), push the record, write the full
document atomically, and release the lock in the `finally` on both the
success and the failure path. -/
def appendCommand (r : CommandRecord) (f : Faults) (s : StoreState) :
    Option StoreErr × StoreState :=
  if s.lockFile then
    (some .lockTimeout, s)
  else
    let locked : StoreState := { s with lockFile := true }
    let result :=
      match locked.historyFile with
      | some c =>
        match parseHistory c with
        | none => (some StoreErr.readError, locked)
        | some h => atomicWrite (h ++ [r]) f locked
      | none => atomicWrite [r] f locked
    (result.1, { result.2 with lockFile := false })

/-- The `fs.copyFileSync` step of `FileManager.backupCorruptedFile`:
copy the history file's bytes to a fresh `<path>.backup.<timestamp>`
sibling.  The original file is untouched by this step. -/
def copyToBackup (s : StoreState) : StoreState :=
  match s.historyFile with
  | some c => { s with backups := s.backups ++ [c] }
  | none => s

/-- The `fs.unlinkSync` step of `FileManager.backupCorruptedFile`:
delete the history file. -/
def unlinkStore (s : StoreState) : StoreState :=
  { s with historyFile := none }

/-- `FileManager.backupCorruptedFile`: a no-op when the history file
does not exist; otherwise copy the file to a backup path and then
delete the original, in that order. -/
def backupCorruptedFile (s : StoreState) : StoreState :=
  match s.historyFile with
  | some _ => unlinkStore (copyToBackup s)
  | none => s

/-- `FileManager.initializeHistoryFile`: if the history file exists and
`force` is false, throw before touching anything; if it exists and
`force` is true, back it up first; then atomically write a fresh empty
document. -/
def initializeHistoryFile (force : Bool) (f : Faults) (s : StoreState) :
    Option StoreErr × StoreState :=
  if s.historyFile.isSome && !force then
    (some .alreadyExists, s)
  else
    let s1 := if s.historyFile.isSome && force then backupCorruptedFile s else s
    atomicWrite [] f s1

/-- JavaScript `array.slice(-n)` for positive `n`: the last `n`
elements (the whole array when `n` is at least its length). -/
def takeLast (l : List CommandRecord) (n : Nat) : List CommandRecord :=
  l.drop (l.length - n)

/-- `FileManager.readHistory`: an absent file reads as an empty list; a
decode failure throws; the guard `limit && limit > 0` (so an absent,
zero — falsy — or negative limit truncates nothing) keeps only the
last `limit` records via `slice(-limit)`. -/
def readHistory (limit : Option Int) (s : StoreState) :
    Except StoreErr (List CommandRecord) :=
  match s.historyFile with
  | none => .ok []
  | some c =>
    match parseHistory c with
    | none => .error .readError
    | some h =>
      match limit with
      | some l => if 0 < l then .ok (takeLast h l.toNat) else .ok h
      | none => .ok h

/-- Sequentially append a list of records with `appendCommand`,
stopping at the first failure (each call is one `append` by the
session-capture collaborator). -/
def appendAll (rs : List CommandRecord) (f : Faults) (s : StoreState) :
    Option StoreErr × StoreState :=
  match rs with
  | [] => (none, s)
  | r :: rest =>
    match appendCommand r f s with
    | (none, s1) => appendAll rest f s1
    | (some e, s1) => (some e, s1)

/-- Per-character model of JavaScript `String.prototype.toLowerCase`
(ASCII range: the code points 65–90 map to 97–122, everything else is
unchanged). -/
def charToLower (c : Char) : Char :=
  if 65 ≤ c.toNat ∧ c.toNat ≤ 90 then Char.ofNat (c.toNat + 32) else c

/-- Per-character model of JavaScript `String.prototype.toUpperCase`
(ASCII range: the code points 97–122 map to 65–90, everything else is
unchanged). -/
def charToUpper (c : Char) : Char :=
  if 97 ≤ c.toNat ∧ c.toNat ≤ 122 then Char.ofNat (c.toNat - 32) else c

/-- JavaScript `toLowerCase` on a whole string. -/
def sToLower (s : String) : String :=
  String.mk (s.toList.map charToLower)

/-- JavaScript `toUpperCase` on a whole string. -/
def sToUpper (s : String) : String :=
  String.mk (s.toList.map charToUpper)

/-- The whitespace characters recognised by JavaScript
`String.prototype.trim` (ASCII subset): space, tab, line feed,
carriage return, vertical tab, form feed. -/
def isJsWs (c : Char) : Bool :=
  c.toNat = 32 || c.toNat = 9 || c.toNat = 10 || c.toNat = 13 ||
  c.toNat = 11 || c.toNat = 12

/-- JavaScript `String.prototype.trim`: strip leading and trailing
whitespace. -/
def jsTrim (s : String) : String :=
  String.mk (((s.toList.dropWhile isJsWs).reverse.dropWhile isJsWs).reverse)

/-- Does the first list start with the second one?  (Helper for the
substring test.) -/
def startsWithList : List Char → List Char → Bool
  | _, [] => true
  | [], _ :: _ => false
  | c :: cs, n :: ns => c == n && startsWithList cs ns

/-- Substring occurrence test on character lists: the needle occurs at
some position of the haystack. -/
def includesList : List Char → List Char → Bool
  | [], needle => needle.isEmpty
  | hay@(_ :: rest), needle => startsWithList hay needle || includesList rest needle

/-- JavaScript `String.prototype.includes`: substring containment. -/
def jsIncludes (s sub : String) : Bool :=
  includesList s.toList sub.toList

/-- `HistoryManager.filterCommands`: an empty or all-whitespace filter
string returns the input unchanged; otherwise keep the records whose
`command`, lowercased, contains the lowercased filter as a
substring. -/
def filterCommands (records : List CommandRecord) (filter : String) :
    List CommandRecord :=
  if filter = "" ∨ (jsTrim filter).length = 0 then records
  else
    let lowerFilter := sToLower filter
    records.filter (fun record => jsIncludes (sToLower record.command) lowerFilter)

/-- JavaScript `Math.max(...xs, h)` on natural numbers, as used for the
column widths of `formatForDisplay`. -/
def jsMax (l : List Nat) (h : Nat) : Nat :=
  l.foldr max h

/-- The largest element of a list of lengths (0 when empty); used by
the spec-worded table formatters below. -/
def maxLen (l : List Nat) : Nat :=
  l.foldr max 0

/-- JavaScript `String.prototype.padEnd` with the default space pad:
append spaces up to the target length (no-op when already long
enough). -/
def padEnd (s : String) (n : Nat) : String :=
  s ++ String.mk (List.replicate (n - s.length) ' ')

/-- JavaScript `'-'.repeat n`. -/
def dashes (n : Nat) : String :=
  String.mk (List.replicate n '-')

/-- `HistoryManager.formatForDisplay`: the empty list formats as a
fixed message; otherwise the widths of the Timestamp, Command, Exit
Code and Directory columns are each the maximum of the header label
length and the longest value, those four columns are space-padded to
their width, the trailing User column is emitted unpadded, data cells
are joined with a bar separator, the separator row joins runs of
dashes (the User run is the fixed four dashes of the label) and the
lines are joined with newlines. -/
def formatForDisplay (records : List CommandRecord) : String :=
  if records.length = 0 then "No command history found."
  else
    let maxTimestampLen := jsMax (records.map (fun r => r.timestamp.length)) ("Timestamp".length)
    let maxCommandLen := jsMax (records.map (fun r => r.command.length)) ("Command".length)
    let maxExitCodeLen := jsMax (records.map (fun r => (toString r.exit_code).length)) ("Exit Code".length)
    let maxCwdLen := jsMax (records.map (fun r => r.cwd.length)) ("Directory".length)
    let header := String.intercalate " | "
      [padEnd "Timestamp" maxTimestampLen, padEnd "Command" maxCommandLen,
       padEnd "Exit Code" maxExitCodeLen, padEnd "Directory" maxCwdLen, "User"]
    let separator := String.intercalate "-+-"
      [dashes maxTimestampLen, dashes maxCommandLen, dashes maxExitCodeLen,
       dashes maxCwdLen, dashes 4]
    let rows := records.map (fun record => String.intercalate " | "
      [padEnd record.timestamp maxTimestampLen, padEnd record.command maxCommandLen,
       padEnd (toString record.exit_code) maxExitCodeLen, padEnd record.cwd maxCwdLen,
       record.user])
    String.intercalate "\n" (header :: separator :: rows)

/-- Modelled from the claim's wording for comparison with
`formatForDisplay`: a table in which the width of each of the five
columns — the User column included — is the maximum of its header
label length and the longest value in that column, every column is
space-padded to that width, and the separator row repeats dashes to
each column's computed width. -/
def formatTableClaim (records : List CommandRecord) : String :=
  if records.length = 0 then "No command history found."
  else
    let wTimestamp := max ("Timestamp".length) (maxLen (records.map (fun r => r.timestamp.length)))
    let wCommand := max ("Command".length) (maxLen (records.map (fun r => r.command.length)))
    let wExitCode := max ("Exit Code".length) (maxLen (records.map (fun r => (toString r.exit_code).length)))
    let wCwd := max ("Directory".length) (maxLen (records.map (fun r => r.cwd.length)))
    let wUser := max ("User".length) (maxLen (records.map (fun r => r.user.length)))
    let header := String.intercalate " | "
      [padEnd "Timestamp" wTimestamp, padEnd "Command" wCommand,
       padEnd "Exit Code" wExitCode, padEnd "Directory" wCwd, padEnd "User" wUser]
    let separator := String.intercalate "-+-"
      [dashes wTimestamp, dashes wCommand, dashes wExitCode, dashes wCwd, dashes wUser]
    let rows := records.map (fun record => String.intercalate " | "
      [padEnd record.timestamp wTimestamp, padEnd record.command wCommand,
       padEnd (toString record.exit_code) wExitCode, padEnd record.cwd wCwd,
       padEnd record.user wUser])
    String.intercalate "\n" (header :: separator :: rows)

/-- The claim's table description amended to what the code does with
the trailing User column: the first four columns' widths are the
maximum of header label length and longest value and those columns are
space-padded to their widths, while the User column is emitted
unpadded with a fixed four-dash separator run; data cells are joined
with the bar separator and the separator row with the dash-plus
separator. -/
def formatTableAmended (records : List CommandRecord) : String :=
  if records.length = 0 then "No command history found."
  else
    let wTimestamp := max ("Timestamp".length) (maxLen (records.map (fun r => r.timestamp.length)))
    let wCommand := max ("Command".length) (maxLen (records.map (fun r => r.command.length)))
    let wExitCode := max ("Exit Code".length) (maxLen (records.map (fun r => (toString r.exit_code).length)))
    let wCwd := max ("Directory".length) (maxLen (records.map (fun r => r.cwd.length)))
    let header := String.intercalate " | "
      [padEnd "Timestamp" wTimestamp, padEnd "Command" wCommand,
       padEnd "Exit Code" wExitCode, padEnd "Directory" wCwd, "User"]
    let separator := String.intercalate "-+-"
      [dashes wTimestamp, dashes wCommand, dashes wExitCode, dashes wCwd, dashes 4]
    let rows := records.map (fun record => String.intercalate " | "
      [padEnd record.timestamp wTimestamp, padEnd record.command wCommand,
       padEnd (toString record.exit_code) wExitCode, padEnd record.cwd wCwd,
       record.user])
    String.intercalate "\n" (header :: separator :: rows)

/-- A JavaScript runtime value as far as `validateCommandRecord`
distinguishes them: a string, a number, `null` or `undefined`. -/
inductive JsVal where
  | str (s : String)
  | num (n : Int)
  | null
  | undef
deriving Repr, DecidableEq

/-- A command record as the JavaScript runtime sees it before
validation: each field may hold any runtime value (the TypeScript
annotations are not enforced at runtime on values coming from the
session hook). -/
structure DynRecord where
  timestamp : JsVal
  user : JsVal
  command : JsVal
  exit_code : JsVal
  cwd : JsVal
deriving Repr, DecidableEq

/-- The check `record[field] === undefined || record[field] === null`
of `validateCommandRecord`. -/
def isMissing (v : JsVal) : Bool :=
  v == .undef || v == .null

/-- The check `typeof record.exit_code === 'number'`. -/
def typeofIsNumber (v : JsVal) : Bool :=
  match v with
  | .num _ => true
  | _ => false

/-- The optional fractional-seconds-and-zone tail of the timestamp
regex: an optional dot with exactly three digits, then an optional
`Z`, then the end of the string. -/
def isoSecondsTail (l : List Char) : Bool :=
  match l with
  | [] => true
  | ['Z'] => true
  | '.' :: d1 :: d2 :: d3 :: rest =>
    d1.isDigit && d2.isDigit && d3.isDigit && (rest.isEmpty || rest == ['Z'])
  | _ => false

/-- `SessionManager.isValidISO8601`: the anchored regex
four digits, dash, two digits, dash, two digits, `T`, two digits,
colon, two digits, colon, two digits, optional dot plus three digits,
optional `Z`. -/
def isValidISO8601 (ts : String) : Bool :=
  match ts.toList with
  | y1 :: y2 :: y3 :: y4 :: '-' :: m1 :: m2 :: '-' :: d1 :: d2 :: 'T' ::
    h1 :: h2 :: ':' :: mi1 :: mi2 :: ':' :: s1 :: s2 :: rest =>
    y1.isDigit && y2.isDigit && y3.isDigit && y4.isDigit &&
    m1.isDigit && m2.isDigit && d1.isDigit && d2.isDigit &&
    h1.isDigit && h2.isDigit && mi1.isDigit && mi2.isDigit &&
    s1.isDigit && s2.isDigit && isoSecondsTail rest
  | _ => false

/-- `isValidISO8601` applied to a runtime value the way
`regex.test` would (a number is coerced to its decimal text; `null`
and `undefined` coerce to text that cannot match the anchored
pattern). -/
def isValidISO8601Val (v : JsVal) : Bool :=
  match v with
  | .str s => isValidISO8601 s
  | .num n => isValidISO8601 (toString n)
  | _ => false

/-- `SessionManager.validateCommandRecord`: reject a record with any
of the five required fields `undefined` or `null` (checked in
declaration order), then reject a timestamp that fails the ISO-8601
regex, then reject a non-number exit code. -/
def validateCommandRecord (record : DynRecord) : Except String Unit :=
  if isMissing record.timestamp then
    .error "CommandRecord missing required field: timestamp"
  else if isMissing record.user then
    .error "CommandRecord missing required field: user"
  else if isMissing record.command then
    .error "CommandRecord missing required field: command"
  else if isMissing record.exit_code then
    .error "CommandRecord missing required field: exit_code"
  else if isMissing record.cwd then
    .error "CommandRecord missing required field: cwd"
  else if !(isValidISO8601Val record.timestamp) then
    .error "Invalid timestamp format"
  else if !(typeofIsNumber record.exit_code) then
    .error "Exit code must be a number"
  else
    .ok ()

/-- The record object literal built by `SessionManager.captureCommand`:
the timestamp text comes from the clock (`dayjs().toISOString()`), the
user from the operating system, and command, exit code and working
directory from the caller. -/
def capturedRecord (nowTs : String) (username command exitCode cwd : JsVal) :
    DynRecord :=
  { timestamp := .str nowTs
    user := username
    command := command
    exit_code := exitCode
    cwd := cwd }

/-- `SessionManager.captureCommand`: build the record, validate it —
a validation failure throws before the append — and only then append
it to the persisted history. -/
def captureCommand (nowTs : String) (username command exitCode cwd : JsVal)
    (persisted : List DynRecord) : Option String × List DynRecord :=
  let record := capturedRecord nowTs username command exitCode cwd
  match validateCommandRecord record with
  | .error e => (some e, persisted)
  | .ok _ => (none, persisted ++ [record])

/-- The record shape asserted by the persisted-record invariant: all
five required fields present and non-null, the exit code a number and
the timestamp well-formed ISO-8601. -/
def recordWellFormed (r : DynRecord) : Bool :=
  !(isMissing r.timestamp) && !(isMissing r.user) && !(isMissing r.command) &&
  !(isMissing r.exit_code) && !(isMissing r.cwd) &&
  typeofIsNumber r.exit_code && isValidISO8601Val r.timestamp

/-- Concrete record from the spec's concrete scenario. -/
def sampleRecord : CommandRecord :=
  { timestamp := "2025-06-01T10:20:30.123Z"
    user := "alice"
    command := "npm install"
    exit_code := 0
    cwd := "C:\\proj" }

/-- Second record of the concrete scenario. -/
def sampleRecord2 : CommandRecord :=
  { timestamp := "2025-06-01T10:21:31.456Z"
    user := "alice"
    command := "git status"
    exit_code := 1
    cwd := "C:\\proj" }

/-- Third record of the concrete scenario. -/
def sampleRecord3 : CommandRecord :=
  { timestamp := "2025-06-01T10:22:32.789Z"
    user := "alice"
    command := "npm run build"
    exit_code := 0
    cwd := "C:\\proj" }

/-- The three records of the concrete scenario, in append order. -/
def sampleRecords : List CommandRecord :=
  [sampleRecord, sampleRecord2, sampleRecord3]

/-- A quiescent store holding the three sample records. -/
def sampleValidStore : StoreState :=
  { historyFile := some (FileContent.valid sampleRecords)
    tmpFile := none
    lockFile := false
    backups := [] }

/-- A quiescent store whose history file holds bytes that do not parse
as the history document. -/
def sampleCorruptStore : StoreState :=
  { historyFile := some (FileContent.corrupt "not json")
    tmpFile := none
    lockFile := false
    backups := [] }

/-- A record whose user name is longer than the `User` header label,
exhibiting the unpadded trailing column of `formatForDisplay`. -/
def sampleRecordLongUser : CommandRecord :=
  { timestamp := "t"
    user := "verylonguser"
    command := "c"
    exit_code := 0
    cwd := "d" }

theorem appendCommand_valid (r : CommandRecord) (s : StoreState)
    (h : List CommandRecord)
    (hs : s.historyFile = some (FileContent.valid h)) (hl : s.lockFile = false) :
    appendCommand r noFaults s =
      (none, { s with
               historyFile := some (FileContent.valid (h ++ [r]))
               tmpFile := none
               lockFile := false }) := by
  obtain ⟨hf, tf, lf, bk⟩ := s
  simp only [StoreState.historyFile] at hs
  simp only [StoreState.lockFile] at hl
  subst hs hl
  simp [appendCommand, atomicWrite, parseHistory, noFaults, serializeHistory]

theorem appendAll_valid (rs : List CommandRecord) (s : StoreState)
    (h : List CommandRecord)
    (hs : s.historyFile = some (FileContent.valid h)) (hl : s.lockFile = false) :
    (appendAll rs noFaults s).1 = none ∧
    (appendAll rs noFaults s).2.historyFile = some (FileContent.valid (h ++ rs)) ∧
    (appendAll rs noFaults s).2.lockFile = false := by
  induction rs generalizing s h with
  | nil => simpa [appendAll] using ⟨hs, hl⟩
  | cons r rest ih =>
    rw [appendAll, appendCommand_valid r s h hs hl]
    have hstep := ih
      { s with
        historyFile := some (FileContent.valid (h ++ [r]))
        tmpFile := none
        lockFile := false } (h ++ [r]) rfl rfl
    simpa using hstep

theorem toNat_ofNat_valid (n : Nat) (h : n < 55296) : (Char.ofNat n).toNat = n := by
  have hv : n.isValidChar := Or.inl h
  simp [Char.ofNat, hv, Char.ofNatAux, Char.toNat, UInt32.toNat]

theorem charToLower_charToUpper (c : Char) :
    charToLower (charToUpper c) = charToLower c := by
  unfold charToLower charToUpper
  by_cases h : 97 ≤ c.toNat ∧ c.toNat ≤ 122
  · rw [if_pos h]
    have h1 : (Char.ofNat (c.toNat - 32)).toNat = c.toNat - 32 :=
      toNat_ofNat_valid _ (by omega)
    rw [h1, if_pos (by omega), if_neg (by omega)]
    have h2 : c.toNat - 32 + 32 = c.toNat := by omega
    rw [h2, Char.ofNat_toNat]
  · rw [if_neg h]

theorem charToLower_charToLower (c : Char) :
    charToLower (charToLower c) = charToLower c := by
  unfold charToLower
  by_cases h : 65 ≤ c.toNat ∧ c.toNat ≤ 90
  · rw [if_pos h]
    have h1 : (Char.ofNat (c.toNat + 32)).toNat = c.toNat + 32 :=
      toNat_ofNat_valid _ (by omega)
    rw [h1, if_neg (by omega)]
  · rw [if_neg h, if_neg h]

theorem map_charToLower_charToUpper (l : List Char) :
    (l.map charToUpper).map charToLower = l.map charToLower := by
  induction l with
  | nil => rfl
  | cons c t ih => simp [ih, charToLower_charToUpper]

theorem map_charToLower_charToLower (l : List Char) :
    (l.map charToLower).map charToLower = l.map charToLower := by
  induction l with
  | nil => rfl
  | cons c t ih => simp [ih, charToLower_charToLower]

theorem sToLower_sToUpper (s : String) : sToLower (sToUpper s) = sToLower s := by
  show String.mk ((s.toList.map charToUpper).map charToLower) =
    String.mk (s.toList.map charToLower)
  rw [map_charToLower_charToUpper]

theorem sToLower_sToLower (s : String) : sToLower (sToLower s) = sToLower s := by
  show String.mk ((s.toList.map charToLower).map charToLower) =
    String.mk (s.toList.map charToLower)
  rw [map_charToLower_charToLower]

theorem isJsWs_charToUpper (c : Char) : isJsWs (charToUpper c) = isJsWs c := by
  unfold charToUpper
  by_cases h : 97 ≤ c.toNat ∧ c.toNat ≤ 122
  · rw [if_pos h]
    have h1 : (Char.ofNat (c.toNat - 32)).toNat = c.toNat - 32 :=
      toNat_ofNat_valid _ (by omega)
    have hL : isJsWs (Char.ofNat (c.toNat - 32)) = false := by
      simp [isJsWs, h1]; omega
    have hR : isJsWs c = false := by
      simp [isJsWs]; omega
    rw [hL, hR]
  · rw [if_neg h]

theorem isJsWs_charToLower (c : Char) : isJsWs (charToLower c) = isJsWs c := by
  unfold charToLower
  by_cases h : 65 ≤ c.toNat ∧ c.toNat ≤ 90
  · rw [if_pos h]
    have h1 : (Char.ofNat (c.toNat + 32)).toNat = c.toNat + 32 :=
      toNat_ofNat_valid _ (by omega)
    have hL : isJsWs (Char.ofNat (c.toNat + 32)) = false := by
      simp [isJsWs, h1]; omega
    have hR : isJsWs c = false := by
      simp [isJsWs]; omega
    rw [hL, hR]
  · rw [if_neg h]

theorem jsTrim_length_eq_zero_iff (s : String) :
    (jsTrim s).length = 0 ↔ ∀ c ∈ s.toList, isJsWs c = true := by
  unfold jsTrim
  show (((s.toList.dropWhile isJsWs).reverse.dropWhile isJsWs).reverse).length = 0 ↔ _
  rw [List.length_reverse, List.length_eq_zero, List.dropWhile_eq_nil_iff]
  constructor
  · intro hall c hc
    have hsplit := List.takeWhile_append_dropWhile (p := isJsWs) (l := s.toList)
    rw [← hsplit] at hc
    rcases List.mem_append.mp hc with h1 | h2
    · exact List.mem_takeWhile_imp h1
    · exact hall c (List.mem_reverse.mpr h2)
  · intro hall c hc
    exact hall c ((List.dropWhile_sublist isJsWs).subset (List.mem_reverse.mp hc))

theorem sToUpper_eq_empty_iff (s : String) : sToUpper s = "" ↔ s = "" := by
  cases s with
  | mk data =>
    constructor
    · intro h
      have hdata : data.map charToUpper = [] := congrArg String.data h
      have : data = [] := List.map_eq_nil_iff.mp hdata
      rw [this]
    · intro h
      rw [h]
      rfl

theorem sToLower_eq_empty_iff (s : String) : sToLower s = "" ↔ s = "" := by
  cases s with
  | mk data =>
    constructor
    · intro h
      have hdata : data.map charToLower = [] := congrArg String.data h
      have : data = [] := List.map_eq_nil_iff.mp hdata
      rw [this]
    · intro h
      rw [h]
      rfl

theorem jsTrim_sToUpper_iff (s : String) :
    (jsTrim (sToUpper s)).length = 0 ↔ (jsTrim s).length = 0 := by
  rw [jsTrim_length_eq_zero_iff, jsTrim_length_eq_zero_iff]
  show (∀ c ∈ s.toList.map charToUpper, isJsWs c = true) ↔ _
  constructor
  · intro hall c hc
    have := hall (charToUpper c) (List.mem_map_of_mem charToUpper hc)
    rwa [isJsWs_charToUpper] at this
  · intro hall c hc
    obtain ⟨d, hd, rfl⟩ := List.mem_map.mp hc
    rw [isJsWs_charToUpper]
    exact hall d hd

theorem jsTrim_sToLower_iff (s : String) :
    (jsTrim (sToLower s)).length = 0 ↔ (jsTrim s).length = 0 := by
  rw [jsTrim_length_eq_zero_iff, jsTrim_length_eq_zero_iff]
  show (∀ c ∈ s.toList.map charToLower, isJsWs c = true) ↔ _
  constructor
  · intro hall c hc
    have := hall (charToLower c) (List.mem_map_of_mem charToLower hc)
    rwa [isJsWs_charToLower] at this
  · intro hall c hc
    obtain ⟨d, hd, rfl⟩ := List.mem_map.mp hc
    rw [isJsWs_charToLower]
    exact hall d hd

theorem jsMax_eq_max_maxLen (l : List Nat) (h : Nat) :
    jsMax l h = max h (maxLen l) := by
  induction l with
  | nil => simp [jsMax, maxLen]
  | cons a t ih =>
    show max a (jsMax t h) = max h (max a (maxLen t))
    rw [ih]
    omega

/-- Claim C1: appending any sequence of records in order, via
`appendCommand`, to a freshly initialized store succeeds, and
`readHistory` with no limit then returns exactly that sequence in the
same order. -/
theorem c1_round_trip (rs : List CommandRecord) :
    (initializeHistoryFile false noFaults emptyStore).1 = none ∧
    (appendAll rs noFaults (initializeHistoryFile false noFaults emptyStore).2).1 = none ∧
    readHistory none (appendAll rs noFaults (initializeHistoryFile false noFaults emptyStore).2).2 =
      .ok rs := by
  have hinit : initializeHistoryFile false noFaults emptyStore =
      (none, { historyFile := some (FileContent.valid [])
               tmpFile := none
               lockFile := false
               backups := [] }) := rfl
  rw [hinit]
  have happ := appendAll_valid rs
    { historyFile := some (FileContent.valid [])
      tmpFile := none
      lockFile := false
      backups := [] } [] rfl rfl
  refine ⟨rfl, happ.1, ?_⟩
  have hfile : (appendAll rs noFaults
      { historyFile := some (FileContent.valid [])
        tmpFile := none
        lockFile := false
        backups := [] }).2.historyFile = some (FileContent.valid rs) := by
    simpa using happ.2.1
  simp [readHistory, hfile, parseHistory]

/-- Claim C2: when the store file exists, `initializeHistoryFile` with
`force` false fails with the already-exists error and returns with the
whole filesystem state untouched — the history file byte-for-byte
unchanged, no write, no backup, no deletion. -/
theorem c2_no_force_protection (s : StoreState) (c : FileContent) (f : Faults)
    (hs : s.historyFile = some c) :
    initializeHistoryFile false f s = (some .alreadyExists, s) := by
  simp [initializeHistoryFile, hs]

/-- Witness for C2 at a concrete populated store. -/
theorem c2_no_force_protection_witness :
    initializeHistoryFile false noFaults sampleValidStore =
      (some .alreadyExists, sampleValidStore) :=
  c2_no_force_protection sampleValidStore (FileContent.valid sampleRecords) noFaults rfl

/-- Claim C3: `initializeHistoryFile` with `force` true on an existing
store holding a record list succeeds, leaves the store holding an
empty history document, and appends exactly one new backup file whose
content is the prior file content; the backup factors as the copy step
followed by the delete step, and after the copy step the original file
is still present while the backup already holds its content. -/
theorem c3_force_reinit_backup (s : StoreState) (c : FileContent)
    (h : List CommandRecord)
    (hs : s.historyFile = some c) (_hc : parseHistory c = some h) :
    initializeHistoryFile true noFaults s =
      (none, { s with
               historyFile := some (serializeHistory [])
               tmpFile := none
               backups := s.backups ++ [c] }) ∧
    parseHistory (serializeHistory []) = some ([] : List CommandRecord) ∧
    backupCorruptedFile s = unlinkStore (copyToBackup s) ∧
    (copyToBackup s).historyFile = some c ∧
    (copyToBackup s).backups = s.backups ++ [c] := by
  obtain ⟨hf, tf, lf, bk⟩ := s
  simp only [StoreState.historyFile] at hs
  subst hs
  refine ⟨?_, rfl, rfl, rfl, rfl⟩
  simp [initializeHistoryFile, backupCorruptedFile, copyToBackup, unlinkStore,
    atomicWrite, noFaults, serializeHistory]

/-- Witness for C3 at a concrete populated store. -/
theorem c3_force_reinit_backup_witness :
    initializeHistoryFile true noFaults sampleValidStore =
      (none, { sampleValidStore with
               historyFile := some (serializeHistory [])
               tmpFile := none
               backups := sampleValidStore.backups ++ [FileContent.valid sampleRecords] }) ∧
    parseHistory (serializeHistory []) = some ([] : List CommandRecord) ∧
    backupCorruptedFile sampleValidStore =
      unlinkStore (copyToBackup sampleValidStore) ∧
    (copyToBackup sampleValidStore).historyFile =
      some (FileContent.valid sampleRecords) ∧
    (copyToBackup sampleValidStore).backups =
      sampleValidStore.backups ++ [FileContent.valid sampleRecords] :=
  c3_force_reinit_backup sampleValidStore (FileContent.valid sampleRecords)
    sampleRecords rfl rfl

/-- Claim C4: on a quiescent store whose file exists but fails to
decode, `appendCommand` fails with the read error and returns the
state exactly as it was: no record appended, no backup made, no
re-initialization, no temp or lock file left. -/
theorem c4_append_corrupt_no_recovery (s : StoreState) (c : FileContent)
    (r : CommandRecord) (f : Faults)
    (hs : s.historyFile = some c) (hc : parseHistory c = none)
    (hl : s.lockFile = false) :
    appendCommand r f s = (some .readError, s) := by
  obtain ⟨hf, tf, lf, bk⟩ := s
  simp only [StoreState.historyFile] at hs
  simp only [StoreState.lockFile] at hl
  subst hs hl
  simp [appendCommand, hc]

/-- Witness for C4 at a concrete corrupted store. -/
theorem c4_append_corrupt_no_recovery_witness :
    appendCommand sampleRecord noFaults sampleCorruptStore =
      (some .readError, sampleCorruptStore) :=
  c4_append_corrupt_no_recovery sampleCorruptStore
    (FileContent.corrupt "not json") sampleRecord noFaults rfl rfl rfl

/-- Claim C5: starting from a quiescent store (no lock held, no stale
temp file), after `appendCommand` returns — success, decode failure,
write failure or rename failure alike — no temp file and no lock file
remain. -/
theorem c5_no_temp_lock_leak (s : StoreState) (r : CommandRecord) (f : Faults)
    (hl : s.lockFile = false) (ht : s.tmpFile = none) :
    (appendCommand r f s).2.tmpFile = none ∧
    (appendCommand r f s).2.lockFile = false := by
  obtain ⟨hf, tf, lf, bk⟩ := s
  simp only [StoreState.lockFile] at hl
  simp only [StoreState.tmpFile] at ht
  subst hl ht
  obtain ⟨wf, rnf⟩ := f
  cases hf with
  | none => cases wf <;> cases rnf <;> simp [appendCommand, atomicWrite]
  | some c =>
    cases c with
    | valid h => cases wf <;> cases rnf <;> simp [appendCommand, atomicWrite, parseHistory]
    | corrupt raw => simp [appendCommand, parseHistory]

/-- Witness for C5: an append that fails its rename still leaves no
temp file and no lock file. -/
theorem c5_no_temp_lock_leak_witness :
    (appendCommand sampleRecord { writeFails := false, renameFails := true }
      sampleValidStore).2.tmpFile = none ∧
    (appendCommand sampleRecord { writeFails := false, renameFails := true }
      sampleValidStore).2.lockFile = false :=
  c5_no_temp_lock_leak sampleValidStore sampleRecord
    { writeFails := false, renameFails := true } rfl rfl

/-- Claim C6: on a stored sequence of records, `readHistory` with a
positive limit smaller than the stored count returns exactly the last
`limit` records: a block of that length whose prepending of the
untouched front of the list reconstitutes the stored sequence. -/
theorem c6_limit_correctness (s : StoreState) (c : FileContent)
    (h : List CommandRecord) (L : Int)
    (hs : s.historyFile = some c) (hc : parseHistory c = some h)
    (hL : 0 < L) (hLN : L.toNat < h.length) :
    readHistory (some L) s = .ok (takeLast h L.toNat) ∧
    (takeLast h L.toNat).length = L.toNat ∧
    h.take (h.length - L.toNat) ++ takeLast h L.toNat = h := by
  refine ⟨?_, ?_, ?_⟩
  · simp [readHistory, hs, hc, hL]
  · simp only [takeLast, List.length_drop]
    omega
  · simp [takeLast, List.take_append_drop]

/-- Witness for C6: the last two of the three sample records. -/
theorem c6_limit_correctness_witness :
    readHistory (some 2) sampleValidStore = .ok (takeLast sampleRecords 2) ∧
    (takeLast sampleRecords 2).length = 2 ∧
    sampleRecords.take (sampleRecords.length - 2) ++ takeLast sampleRecords 2 =
      sampleRecords :=
  c6_limit_correctness sampleValidStore (FileContent.valid sampleRecords)
    sampleRecords 2 rfl rfl (by decide) (by decide)

/-- Claim C10: on an existing well-formed store, `readHistory` with an
absent, zero or negative limit returns the entire stored history in
order — a non-positive limit is not an error and truncates nothing. -/
theorem c10_nonpositive_limit (s : StoreState) (c : FileContent)
    (h : List CommandRecord) (limit : Option Int)
    (hs : s.historyFile = some c) (hc : parseHistory c = some h)
    (hlim : limit = none ∨ ∃ l, limit = some l ∧ l ≤ 0) :
    readHistory limit s = .ok h := by
  rcases hlim with h1 | ⟨l, hl, hle⟩
  · subst h1
    simp [readHistory, hs, hc]
  · subst hl
    simp [readHistory, hs, hc, not_lt.mpr hle]

/-- Witness for C10: a negative limit reads the full sample history. -/
theorem c10_nonpositive_limit_witness :
    readHistory (some (-1)) sampleValidStore = .ok sampleRecords :=
  c10_nonpositive_limit sampleValidStore (FileContent.valid sampleRecords)
    sampleRecords (some (-1)) rfl rfl (Or.inr ⟨-1, rfl, by decide⟩)

/-- Counterexample to claim C7 as stated: on a record whose user name
is longer than the `User` header label, the table produced by
`formatForDisplay` differs from the table the claim describes (all
five columns padded to a computed width with a separator run of that
width) — the code leaves the User column unpadded and emits a fixed
four-dash separator run for it. -/
theorem c7_format_table_counterexample :
    formatForDisplay [sampleRecordLongUser] ≠ formatTableClaim [sampleRecordLongUser] := by
  decide

/-- Claim C7 as amended: for every non-empty record list
`formatForDisplay` produces the table with columns Timestamp, Command,
Exit Code, Directory, User in that order, where the widths of the
first four columns are each the maximum of the header label length and
the longest value in the column, those four columns are space-padded
to their width, the trailing User column is emitted unpadded, data
cells are joined with the bar separator, and the separator row joins
runs of dashes sized to the four computed widths with a fixed four-dash
run for the User column. -/
theorem c7_format_table_amended (records : List CommandRecord)
    (hne : records ≠ []) :
    formatForDisplay records = formatTableAmended records := by
  have hlen : ¬(records.length = 0) := fun h => hne (List.length_eq_zero.mp h)
  unfold formatForDisplay formatTableAmended
  rw [if_neg hlen, if_neg hlen]
  simp only [jsMax_eq_max_maxLen]

/-- Witness for the amended C7 at a concrete record list. -/
theorem c7_format_table_amended_witness :
    formatForDisplay [sampleRecordLongUser] = formatTableAmended [sampleRecordLongUser] :=
  c7_format_table_amended [sampleRecordLongUser] (by decide)

/-- Claim C8: for a non-empty, non-all-whitespace needle, filtering by
the needle, its uppercasing and its lowercasing produce identical
results; every returned record's command contains the needle
case-insensitively, every excluded record's command does not, and the
result is a subsequence of the input (relative order preserved). -/
theorem c8_filter_case_insensitive (records : List CommandRecord)
    (needle : String)
    (hne : needle ≠ "") (hws : (jsTrim needle).length ≠ 0) :
    filterCommands records (sToUpper needle) = filterCommands records needle ∧
    filterCommands records (sToLower needle) = filterCommands records needle ∧
    (∀ r ∈ filterCommands records needle,
      jsIncludes (sToLower r.command) (sToLower needle) = true) ∧
    (∀ r ∈ records, r ∉ filterCommands records needle →
      jsIncludes (sToLower r.command) (sToLower needle) = false) ∧
    (filterCommands records needle).Sublist records := by
  have g : ¬(needle = "" ∨ (jsTrim needle).length = 0) := by
    push_neg
    exact ⟨hne, hws⟩
  have gU : ¬(sToUpper needle = "" ∨ (jsTrim (sToUpper needle)).length = 0) := by
    push_neg
    constructor
    · intro h
      exact hne ((sToUpper_eq_empty_iff needle).mp h)
    · intro h
      exact hws ((jsTrim_sToUpper_iff needle).mp h)
  have gL : ¬(sToLower needle = "" ∨ (jsTrim (sToLower needle)).length = 0) := by
    push_neg
    constructor
    · intro h
      exact hne ((sToLower_eq_empty_iff needle).mp h)
    · intro h
      exact hws ((jsTrim_sToLower_iff needle).mp h)
  have hbase : filterCommands records needle =
      records.filter (fun record =>
        jsIncludes (sToLower record.command) (sToLower needle)) := by
    unfold filterCommands
    rw [if_neg g]
  refine ⟨?_, ?_, ?_, ?_, ?_⟩
  · unfold filterCommands
    rw [if_neg gU, if_neg g, sToLower_sToUpper]
  · unfold filterCommands
    rw [if_neg gL, if_neg g, sToLower_sToLower]
  · intro r hr
    rw [hbase] at hr
    exact (List.mem_filter.mp hr).2
  · intro r hr hnotin
    rw [hbase] at hnotin
    by_contra hne2
    have htrue : jsIncludes (sToLower r.command) (sToLower needle) = true := by
      cases hval : jsIncludes (sToLower r.command) (sToLower needle) with
      | true => rfl
      | false => exact absurd hval hne2
    exact hnotin (List.mem_filter.mpr ⟨hr, htrue⟩)
  · rw [hbase]
    exact List.filter_sublist records

/-- Witness for C8: the spec's concrete scenario, records with
commands npm install, git status and npm run build filtered by the
uppercase needle NPM. -/
theorem c8_filter_case_insensitive_witness :
    filterCommands sampleRecords (sToUpper "NPM") = filterCommands sampleRecords "NPM" ∧
    filterCommands sampleRecords (sToLower "NPM") = filterCommands sampleRecords "NPM" ∧
    (∀ r ∈ filterCommands sampleRecords "NPM",
      jsIncludes (sToLower r.command) (sToLower "NPM") = true) ∧
    (∀ r ∈ sampleRecords, r ∉ filterCommands sampleRecords "NPM" →
      jsIncludes (sToLower r.command) (sToLower "NPM") = false) ∧
    (filterCommands sampleRecords "NPM").Sublist sampleRecords :=
  c8_filter_case_insensitive sampleRecords "NPM" (by decide) (by decide)

/-- Claim C9: a record built by `captureCommand` that passes
`validateCommandRecord` is appended and satisfies the persisted-record
invariant — all five required fields present and non-null, exit code a
number, timestamp well-formed ISO-8601; a record failing validation
makes `captureCommand` throw before any append, leaving the persisted
history unchanged. -/
theorem c9_capture_validates (nowTs : String)
    (username command exitCode cwd : JsVal) (persisted : List DynRecord) :
    (validateCommandRecord (capturedRecord nowTs username command exitCode cwd) = .ok () →
      captureCommand nowTs username command exitCode cwd persisted =
        (none, persisted ++ [capturedRecord nowTs username command exitCode cwd]) ∧
      recordWellFormed (capturedRecord nowTs username command exitCode cwd) = true) ∧
    (∀ e, validateCommandRecord (capturedRecord nowTs username command exitCode cwd) = .error e →
      captureCommand nowTs username command exitCode cwd persisted = (some e, persisted)) := by
  constructor
  · intro hok
    refine ⟨by simp [captureCommand, hok], ?_⟩
    unfold validateCommandRecord at hok
    unfold recordWellFormed
    split_ifs at hok with h1 h2 h3 h4 h5 h6 h7
    · simp_all
  · intro e herr
    simp [captureCommand, herr]

/-- Witness for C9: a concrete valid capture is appended and
well-formed. -/
theorem c9_capture_validates_witness :
    captureCommand "2025-06-01T10:20:30.123Z" (.str "alice") (.str "npm install")
      (.num 0) (.str "C:\\proj") [] =
      (none, [capturedRecord "2025-06-01T10:20:30.123Z" (.str "alice")
        (.str "npm install") (.num 0) (.str "C:\\proj")]) ∧
    recordWellFormed (capturedRecord "2025-06-01T10:20:30.123Z" (.str "alice")
      (.str "npm install") (.num 0) (.str "C:\\proj")) = true := by
  have h := (c9_capture_validates "2025-06-01T10:20:30.123Z" (.str "alice")
    (.str "npm install") (.num 0) (.str "C:\\proj") []).1 rfl
  simpa using h

end Jyugemu
